import Mathlib

/-!
Shallow embedding of the AMI annotation extractor (src/extractor.py) and
verification of its specification.

Modelling conventions:
* Python floats are modelled as rationals (`ℚ`); the timing attributes of
  XML nodes are modelled as already parsed (`Option ℚ` records presence of
  the attribute), since none of the verified properties concerns the
  decimal-literal parser itself.
* An XML word node (`WNode`) records the fields the extractor reads: the
  element tag, the presence/value of the `starttime` and `endtime`
  attributes, the text content (`None` in Python when the element is
  empty, hence `Option String`), and whether a `punc` attribute is
  present.
* A segment node (`SNode`) records the `href` attribute of its first
  child and the two transcriber timing attributes.
* Exceptions are modelled with `Except String` / `Option`: a `.error` or
  `none` result corresponds to the Python code raising.
* The Python list slice `l[a:b]` (with non-negative bounds, which is the
  only case that occurs: word indices come from the regex `\d+`) is
  `pySlice`: it clamps, and never raises.
* Dictionaries iterated in insertion order are modelled as association
  lists; the stable `list.sort` of Python is modelled by `List.mergeSort`,
  which is likewise a stable sort.
-/

namespace AMI

/-- A parsed word entry: dict
`{start: float, end: float, content: i.text, punc: bool}` built by
`parse_words`.  `content` is `Option String` because `i.text` is `None`
for an empty element. -/
structure WordEntry where
  start : ℚ
  end_ : ℚ
  content : Option String
  punc : Bool
deriving DecidableEq, Repr

/-- A parsed segment boundary: dict
`{start, end, from_word, to_word}` built by `parse_segments`. -/
structure Segment where
  start : ℚ
  end_ : ℚ
  from_word : Nat
  to_word : Nat
deriving DecidableEq, Repr

/-- A reconstructed sentence/utterance: dict `{start, end, content}`
built by the sentence-building loop of `run_from_cli`. -/
structure Utterance where
  start : ℚ
  end_ : ℚ
  content : String
deriving DecidableEq, Repr

/-- A node of a per-speaker words XML document, as read by `parse_words`:
its tag, the optional `starttime`/`endtime` attributes (modelled as
parsed rationals), its text content, and whether a `punc` attribute is
present. -/
structure WNode where
  tag : String
  starttime : Option ℚ
  endtime : Option ℚ
  text : Option String
  punc : Bool
deriving DecidableEq, Repr

/-- A node of a per-speaker segments XML document, as read by
`parse_segments`: the `href` attribute of its first child and the two
transcriber timing attributes. -/
structure SNode where
  href : String
  transcriber_start : ℚ
  transcriber_end : ℚ
deriving DecidableEq, Repr

/-! ## parse_words -/

/-- One iteration of the loop body of `parse_words`:
`None` (a gap) when the tag is not `w` or either timing attribute is
missing, otherwise the word dict. -/
def parseWordNode (n : WNode) : Option WordEntry :=
  if n.tag ≠ "w" then
    none
  else
    match n.starttime, n.endtime with
    | some s, some e => some { start := s, end_ := e, content := n.text, punc := n.punc }
    | _, _ => none

/-- `parse_words` produces an ordered dict id ↦ entry-or-None; the
pipeline only ever uses `list(....values())`, i.e. the orderd list of
values.  Ids are unique per the schema, so this is the map of the node
list. -/
def parseWords (ns : List WNode) : List (Option WordEntry) :=
  ns.map parseWordNode

/-! ## parse_segments -/

/-- Numeric value of an ASCII digit character. -/
def digitVal (c : Char) : Nat := c.toNat - 48

/-- Value of a digit string, accumulator style (`int(...)` on the
captured group). -/
def digitsToNat (acc : Nat) : List Char → Nat
  | [] => acc
  | c :: cs => digitsToNat (acc * 10 + digitVal c) cs

/-- Attempt to match the regex `words(\d+)` at the head of the list:
the literal `words` followed by at least one digit; the captured group
is the maximal digit run. -/
def matchWordsAt : List Char → Option Nat
  | 'w' :: 'o' :: 'r' :: 'd' :: 's' :: rest =>
    let ds := rest.takeWhile Char.isDigit
    if ds.isEmpty then none else some (digitsToNat 0 ds)
  | _ => none

/-- `re.search(r"words(\d+)", s)`: the leftmost match of the pattern. -/
def searchWordsNum : List Char → Option Nat
  | [] => none
  | c :: cs =>
    match matchWordsAt (c :: cs) with
    | some v => some v
    | none => searchWordsNum cs

/-- Python `s.split(sep)` for a single-character separator `sep`. -/
def splitChar (sep : Char) : List Char → List (List Char)
  | [] => [[]]
  | c :: cs =>
    if c = sep then [] :: splitChar sep cs
    else
      match splitChar sep cs with
      | [] => [[c]]
      | g :: gs => (c :: g) :: gs

/-- Python `s.split("..")`: left-to-right, non-overlapping. -/
def splitDD : List Char → List (List Char)
  | [] => [[]]
  | '.' :: '.' :: rest => [] :: splitDD rest
  | c :: rest =>
    match splitDD rest with
    | [] => [[c]]
    | g :: gs => (c :: g) :: gs

/-- `id_str = i[0].attrib["href"].split("#")[-1]` followed by
`id_str.split("..")`. -/
def segTokens (n : SNode) : List (List Char) :=
  splitDD ((splitChar '#' n.href.data).getLastD [])

/-- One iteration of the loop body of `parse_segments`: a two-token
boundary yields a segment (or raises when the word-id regex fails on
either token), a one-token boundary is silently skipped, any other token
count raises. -/
def parseSegNode (n : SNode) : Except String (Option Segment) :=
  match segTokens n with
  | [f, t] =>
    match searchWordsNum f, searchWordsNum t with
    | some fw, some tw =>
      .ok (some { start := n.transcriber_start, end_ := n.transcriber_end,
                  from_word := fw, to_word := tw })
    | _, _ => .error "Could not extract word id in segment xml"
  | [_] => .ok none
  | _ => .error "Encountered unknown type of word while parsing segments"

/-- `parse_segments`: process the document nodes in order, collecting
the produced segments; the first raising node aborts the parse. -/
def parseSegments : List SNode → Except String (List Segment)
  | [] => .ok []
  | n :: ns =>
    match parseSegNode n with
    | .error e => .error e
    | .ok none => parseSegments ns
    | .ok (some s) => (parseSegments ns).map (s :: ·)

/-- The segment a single node contributes, if any. -/
def segOfNode (n : SNode) : Option Segment :=
  match parseSegNode n with
  | .ok s => s
  | .error _ => none

/-- A node reference that does not raise: exactly one token, or exactly
two tokens both matching the word-id regex. -/
def refOk (n : SNode) : Prop :=
  (segTokens n).length = 1 ∨
    ((segTokens n).length = 2 ∧ ∀ t ∈ segTokens n, (searchWordsNum t).isSome)

instance (n : SNode) : Decidable (refOk n) := by
  unfold refOk; infer_instance

/-! ## join_seg_words and the sentence-building loop -/

/-- Python list slice `l[a:b]` for non-negative bounds: clamping, total. -/
def pySlice (l : List α) (a b : Nat) : List α :=
  (l.take b).drop a

/-- `join_seg_words`: for each segment, the inclusive slice
`words[from_word : to_word + 1]` with the `None` gaps filtered out. -/
def joinSegWords (segments : List Segment) (words : List (Option WordEntry)) :
    List (List WordEntry) :=
  segments.map fun s => (pySlice words s.from_word (s.to_word + 1)).filterMap id

/-- Python `" ".join(l)`. -/
def joinSp : List String → String
  | [] => ""
  | [s] => s
  | s :: rest => s ++ " " ++ joinSp rest

/-- Sequence a list of optional strings: `none` as soon as any element
is `None`. -/
def seqContents : List (Option String) → Option (List String)
  | [] => some []
  | none :: _ => none
  | some c :: rest => (seqContents rest).map (c :: ·)

/-- `" ".join` over possibly-`None` contents: raises (`none`) when
any element is `None`, as the Python `str.join` does. -/
def joinContents (cs : List (Option String)) : Option String :=
  (seqContents cs).map joinSp

/-- The sentence-building loop of `run_from_cli`: empty groups are
skipped, a non-empty group becomes one utterance
`{start: i[0].start, end: i[-1].end, content: " ".join(contents)}`;
a `None` content raises (`none`). -/
def buildSentences : List (List WordEntry) → Option (List Utterance)
  | [] => some []
  | [] :: gs => buildSentences gs
  | (w :: ws) :: gs =>
    match joinContents ((w :: ws).map WordEntry.content) with
    | none => none
    | some c =>
      match buildSentences gs with
      | none => none
      | some rest =>
        some ({ start := w.start, end_ := ((w :: ws).getLastD w).end_, content := c } :: rest)

/-! ## make_rttm -/

/-- Character of an ASCII digit value. -/
def digitChar (d : Nat) : Char := Char.ofNat (48 + d)

/-- Decimal digit characters of a natural number, most significant
first. -/
def natChars (n : Nat) : List Char :=
  if _h : n < 10 then [digitChar n]
  else natChars (n / 10) ++ [digitChar (n % 10)]
decreasing_by exact Nat.div_lt_self (by omega) (by omega)

/-- The three-digit, zero-padded rendering of `m % 1000`
(`m` is expected below 1000). -/
def pad3 (m : Nat) : List Char :=
  [digitChar (m / 100), digitChar (m / 10 % 10), digitChar (m % 10)]

/-- The Python formatting `"%.3f" % x` over the rational model: the
value is rounded to the nearest thousandth and rendered with exactly
three digits after the decimal point. -/
def fmt3 (x : ℚ) : String :=
  let n : ℤ := round (1000 * x)
  let a := n.natAbs
  String.mk ((if n < 0 then ['-'] else []) ++ natChars (a / 1000) ++ '.' :: pad3 (a % 1000))

/-- One output row built inside `make_rttm`:
the space-join of the ten RTTM fields. -/
def rttmLine (meet_id spkr_name : String) (s e : ℚ) : String :=
  joinSp ["SPEAKER", meet_id, "1", fmt3 s, fmt3 (e - s), "<NA>", "<NA>",
          spkr_name, "<NA>", "<NA>"]

/-- The `result` list of `make_rttm` before sorting: for every speaker
label in iteration (insertion) order, for every utterance in order, the
pair of the start time and the formatted row.  `spkrName` is the lookup
`speakers[meet_id][spkr_id]["id"]`. -/
def rttmEntries (meet_id : String) (transcript : List (String × List Utterance))
    (spkrName : String → String) : List (ℚ × String) :=
  transcript.flatMap fun p =>
    p.2.map fun u => (u.start, rttmLine meet_id (spkrName p.1) u.start u.end_)

/-- `result.sort(key=lambda x: x[0])`: the stable sort of the entries by
start time. -/
def makeRttmPairs (meet_id : String) (transcript : List (String × List Utterance))
    (spkrName : String → String) : List (ℚ × String) :=
  (rttmEntries meet_id transcript spkrName).mergeSort fun a b => decide (a.1 ≤ b.1)

/-- `make_rttm`: the sorted rows, start keys dropped. -/
def makeRttm (meet_id : String) (transcript : List (String × List Utterance))
    (spkrName : String → String) : List String :=
  (makeRttmPairs meet_id transcript spkrName).map Prod.snd

/-! ## Re-parsing of the serialized output (for the round-trip and
field-structure properties) -/

/-- Split a character list at every space, the inverse of a space-join
of space-free fields. -/
def splitSp : List Char → List (List Char) := splitChar ' '

/-- Parse a run of decimal digits, accumulator style; `none` on any
non-digit character. -/
def parseDigits (acc : Nat) : List Char → Option Nat
  | [] => some acc
  | c :: cs => if c.isDigit then parseDigits (acc * 10 + digitVal c) cs else none

/-- Split a character list at the first dot. -/
def splitAtDot : List Char → Option (List Char × List Char)
  | [] => none
  | c :: rest =>
    if c = '.' then some ([], rest)
    else (splitAtDot rest).map fun p => (c :: p.1, p.2)

/-- Parse an unsigned fixed-point numeral with exactly three digits
after the dot. -/
def parseFixed3Abs (l : List Char) : Option ℚ :=
  match splitAtDot l with
  | none => none
  | some (ip, fp) =>
    if ip.isEmpty ∨ fp.length ≠ 3 then none
    else
      match parseDigits 0 ip, parseDigits 0 fp with
      | some i, some f => some ((i : ℚ) + (f : ℚ) / 1000)
      | _, _ => none

/-- Parse a (possibly negative) fixed-point numeral with three decimal
places, as an RTTM consumer reads the time fields back. -/
def parseFixed3 (s : String) : Option ℚ :=
  match s.data with
  | [] => none
  | c :: rest =>
    if c = '-' then (parseFixed3Abs rest).map Neg.neg
    else parseFixed3Abs (c :: rest)

/-! ## Helper lemmas -/

theorem seqContents_of_none (os : List (Option String)) (h : none ∈ os) :
    seqContents os = none := by
  induction os with
  | nil => cases h
  | cons o os ih =>
    cases o with
    | none => rfl
    | some a =>
      have hm : none ∈ os := by
        cases List.mem_cons.mp h with
        | inl h2 => exact absurd h2 (by simp)
        | inr h2 => exact h2
      simp [seqContents, ih hm]

theorem joinContents_none (l : List WordEntry) (w : WordEntry)
    (hw : w ∈ l) (hc : w.content = none) :
    joinContents (l.map WordEntry.content) = none := by
  have hmem : (none : Option String) ∈ l.map WordEntry.content :=
    hc ▸ List.mem_map_of_mem WordEntry.content hw
  simp [joinContents, seqContents_of_none _ hmem]

theorem seqContents_all_some (l : List WordEntry) (hc : ∀ u ∈ l, u.content ≠ none) :
    seqContents (l.map WordEntry.content) = some (l.filterMap WordEntry.content) := by
  induction l with
  | nil => simp [seqContents]
  | cons u rest ih =>
    obtain ⟨c, hcu⟩ := Option.ne_none_iff_exists'.mp (hc u (List.mem_cons_self u rest))
    have ihr := ih fun v hv => hc v (List.mem_cons_of_mem u hv)
    simp [seqContents, hcu, ihr, List.filterMap_cons]

theorem joinContents_all_some (l : List WordEntry) (hc : ∀ u ∈ l, u.content ≠ none) :
    joinContents (l.map WordEntry.content) =
      some (joinSp (l.filterMap WordEntry.content)) := by
  simp [joinContents, seqContents_all_some l hc]

theorem parseWordNode_some (n : WNode) (s e : ℚ) (ht : n.tag = "w")
    (hs : n.starttime = some s) (he : n.endtime = some e) :
    parseWordNode n = some { start := s, end_ := e, content := n.text, punc := n.punc } := by
  simp [parseWordNode, ht, hs, he]

theorem parseSegNode_single (n : SNode) (h : (segTokens n).length = 1) :
    parseSegNode n = .ok none := by
  obtain ⟨x, hx⟩ := List.length_eq_one.mp h
  simp [parseSegNode, hx]

/-! ## Claim theorems -/

/-- C2: a segment node whose reference splits on `..` into exactly one
token contributes nothing: parsing the document with the node is the
same as parsing it without, so no segment — and a fortiori no utterance,
whatever the word timeline — ever arises from it, and no error is
raised for it. -/
theorem single_token_boundary_dropped (ns₁ ns₂ : List SNode) (n : SNode)
    (h : (segTokens n).length = 1) :
    parseSegments (ns₁ ++ n :: ns₂) = parseSegments (ns₁ ++ ns₂) := by
  induction ns₁ with
  | nil => simp [parseSegments, parseSegNode_single n h]
  | cons a as ih =>
    cases ha : parseSegNode a with
    | error e => simp [parseSegments, ha]
    | ok o => cases o <;> simp [parseSegments, ha, ih]

/-- Witness for C2 on a concrete document. -/
theorem single_token_boundary_dropped_witness :
    (segTokens ⟨"IS1000a.D.words.xml#id(IS1000a.D.words24)", 5, 6⟩).length = 1 ∧
    parseSegments ([⟨"f#words1..words2", 0, 1⟩] ++
        ⟨"IS1000a.D.words.xml#id(IS1000a.D.words24)", 5, 6⟩ :: [⟨"f#words4..words5", 2, 3⟩]) =
      parseSegments ([⟨"f#words1..words2", 0, 1⟩] ++ [⟨"f#words4..words5", 2, 3⟩]) :=
  ⟨by decide,
   single_token_boundary_dropped [⟨"f#words1..words2", 0, 1⟩] [⟨"f#words4..words5", 2, 3⟩]
     ⟨"IS1000a.D.words.xml#id(IS1000a.D.words24)", 5, 6⟩ (by decide)⟩

/-- C4: a boundary whose inclusive slice of the timeline contains only
gaps (or is empty) produces no utterance and raises no error: the
reconstruction is exactly the reconstruction of the remaining
boundaries. -/
theorem empty_span_dropped (seg : Segment) (rest : List Segment)
    (words : List (Option WordEntry))
    (h : (pySlice words seg.from_word (seg.to_word + 1)).filterMap id = []) :
    buildSentences (joinSegWords (seg :: rest) words) =
      buildSentences (joinSegWords rest words) := by
  simp [joinSegWords, h, buildSentences]

/-- Witness for C4: a slice holding a single gap. -/
theorem empty_span_dropped_witness :
    (pySlice ([none, some ⟨1, 2, some "hi", false⟩] : List (Option WordEntry))
        (Segment.mk 0 1 0 0).from_word ((Segment.mk 0 1 0 0).to_word + 1)).filterMap id = [] ∧
    buildSentences (joinSegWords [⟨0, 1, 0, 0⟩]
        [none, some ⟨1, 2, some "hi", false⟩]) =
      buildSentences (joinSegWords [] [none, some ⟨1, 2, some "hi", false⟩]) :=
  ⟨by decide, empty_span_dropped ⟨0, 1, 0, 0⟩ [] _ (by decide)⟩

/-- C5 (counterexample to the claim as stated): the claim says a node is
a gap iff it is not a lexical word node or lacks BOTH timing
attributes.  A `w` node carrying a start time but no end time is a gap
in the code, yet the claimed condition does not hold for it. -/
theorem word_gap_iff_counterexample :
    parseWordNode ⟨"w", some 1, none, some "hi", false⟩ = none ∧
    ¬((WNode.mk "w" (some 1) none (some "hi") false).tag ≠ "w" ∨
      ((WNode.mk "w" (some 1) none (some "hi") false).starttime = none ∧
       (WNode.mk "w" (some 1) none (some "hi") false).endtime = none)) := by
  decide

/-- C5 (amended): a node is mapped to a gap iff it is not a lexical
`w` node, or it lacks the start time attribute OR the end time
attribute; otherwise it yields the word entry with the parsed times,
the raw text as content, and the punctuation flag reflecting the
presence of the `punc` attribute. -/
theorem word_gap_iff (n : WNode) :
    (parseWordNode n = none ↔
      (n.tag ≠ "w" ∨ n.starttime = none ∨ n.endtime = none)) ∧
    (∀ s e, n.tag = "w" → n.starttime = some s → n.endtime = some e →
      parseWordNode n = some { start := s, end_ := e, content := n.text, punc := n.punc }) := by
  constructor
  · by_cases ht : n.tag = "w"
    · cases hs : n.starttime <;> cases he : n.endtime <;>
        simp [parseWordNode, ht, hs, he]
    · simp [parseWordNode, ht]
  · intro s e ht hs he
    exact parseWordNode_some n s e ht hs he

/-- Witness for C5 (amended) at a concrete lexical node. -/
theorem word_gap_iff_witness :
    (parseWordNode ⟨"w", some 2, some 3, some "ok", true⟩ = none ↔
      ((WNode.mk "w" (some 2) (some 3) (some "ok") true).tag ≠ "w" ∨
       (WNode.mk "w" (some 2) (some 3) (some "ok") true).starttime = none ∨
       (WNode.mk "w" (some 2) (some 3) (some "ok") true).endtime = none)) ∧
    (∀ s e, (WNode.mk "w" (some 2) (some 3) (some "ok") true).tag = "w" →
      (WNode.mk "w" (some 2) (some 3) (some "ok") true).starttime = some s →
      (WNode.mk "w" (some 2) (some 3) (some "ok") true).endtime = some e →
      parseWordNode ⟨"w", some 2, some 3, some "ok", true⟩ =
        some { start := s, end_ := e,
               content := (WNode.mk "w" (some 2) (some 3) (some "ok") true).text,
               punc := (WNode.mk "w" (some 2) (some 3) (some "ok") true).punc }) :=
  word_gap_iff ⟨"w", some 2, some 3, some "ok", true⟩

/-- C10: a lexical `w` node with both timing attributes but absent text
is stored as a word entry with `content = none`; and whenever such an
entry lies in a non-empty group, the sentence-building step fails
(`none`, modelling the Python `TypeError` of `" ".join`) instead of
producing an utterance. -/
theorem absent_text_breaks_reconstruction (n : WNode) (s e : ℚ)
    (ht : n.tag = "w") (hs : n.starttime = some s) (he : n.endtime = some e)
    (htext : n.text = none) :
    parseWordNode n = some { start := s, end_ := e, content := none, punc := n.punc } ∧
    (∀ (g : List WordEntry) (gs : List (List WordEntry)) (w : WordEntry),
      w ∈ g → w.content = none → buildSentences (g :: gs) = none) := by
  constructor
  · have := parseWordNode_some n s e ht hs he
    rwa [htext] at this
  · intro g gs w hw hc
    cases g with
    | nil => cases hw
    | cons a as =>
      have hj := joinContents_none (a :: as) w hw hc
      simp only [List.map_cons] at hj
      simp [buildSentences, hj]

/-- Witness for C10 at a concrete node and group. -/
theorem absent_text_breaks_reconstruction_witness :
    (parseWordNode ⟨"w", some 1, some 2, none, false⟩ =
      some { start := 1, end_ := 2, content := none,
             punc := (WNode.mk "w" (some 1) (some 2) none false).punc }) ∧
    (∀ (g : List WordEntry) (gs : List (List WordEntry)) (w : WordEntry),
      w ∈ g → w.content = none → buildSentences (g :: gs) = none) :=
  absent_text_breaks_reconstruction ⟨"w", some 1, some 2, none, false⟩ 1 2
    rfl rfl rfl rfl

/-- C1 (counterexample to the claim as stated): a timeline whose only
entry is non-gap but has absent (`None`) text content.  The slice for
boundary `(0, 0)` contains one non-gap entry, yet no utterance is
emitted: the sentence-building step fails. -/
theorem utterance_span_counterexample :
    buildSentences (joinSegWords [⟨0, 0, 0, 0⟩] [some ⟨1, 2, none, false⟩]) = none := by
  decide

/-- C1 (amended, by the `None`-content failure above): for a boundary
whose inclusive slice contains at least one non-gap entry, all of whose
non-gap entries carry present text, the loop emits exactly one
utterance for that boundary — starting at the start of the first non-gap entry,
ending at the end of the last non-gap entry, with the space-joined
contents of exactly the non-gap entries in timeline order — in front of
the result for the remaining boundaries. -/
theorem utterance_span (seg : Segment) (rest : List Segment)
    (words : List (Option WordEntry)) (w : WordEntry) (ws : List WordEntry)
    (hslice : (pySlice words seg.from_word (seg.to_word + 1)).filterMap id = w :: ws)
    (hc : ∀ u ∈ w :: ws, u.content ≠ none) :
    buildSentences (joinSegWords (seg :: rest) words) =
      (buildSentences (joinSegWords rest words)).map
        (fun r => { start := w.start, end_ := ((w :: ws).getLastD w).end_,
                    content := joinSp ((w :: ws).filterMap WordEntry.content) } :: r) := by
  have hjoin : joinSegWords (seg :: rest) words = (w :: ws) :: joinSegWords rest words := by
    simp [joinSegWords, hslice]
  rw [hjoin]
  have hj := joinContents_all_some (w :: ws) hc
  simp only [List.map_cons] at hj
  cases h : buildSentences (joinSegWords rest words) with
  | none => simp [buildSentences, hj, h]
  | some r => simp [buildSentences, hj, h]

/-- Witness for C1 (amended): the concrete scenario of the spec, a
timeline `[hello, gap, world]` with boundary `(0, 2)`. -/
theorem utterance_span_witness :
    (pySlice [some ⟨1, 2, some "hello", false⟩, none,
        some ⟨3, 4, some "world", false⟩]
      (Segment.mk 0 0 0 2).from_word ((Segment.mk 0 0 0 2).to_word + 1)).filterMap id =
      (WordEntry.mk 1 2 (some "hello") false) ::
        [WordEntry.mk 3 4 (some "world") false] ∧
    (∀ u ∈ (WordEntry.mk 1 2 (some "hello") false) ::
        [WordEntry.mk 3 4 (some "world") false], u.content ≠ none) ∧
    buildSentences (joinSegWords [⟨0, 0, 0, 2⟩]
        [some ⟨1, 2, some "hello", false⟩, none, some ⟨3, 4, some "world", false⟩]) =
      (buildSentences (joinSegWords []
          [some ⟨1, 2, some "hello", false⟩, none,
           some ⟨3, 4, some "world", false⟩])).map
        (fun r => { start := (WordEntry.mk 1 2 (some "hello") false).start,
                    end_ := (((WordEntry.mk 1 2 (some "hello") false) ::
                        [WordEntry.mk 3 4 (some "world") false]).getLastD
                        (WordEntry.mk 1 2 (some "hello") false)).end_,
                    content := joinSp (((WordEntry.mk 1 2 (some "hello") false) ::
                        [WordEntry.mk 3 4 (some "world") false]).filterMap
                        WordEntry.content) } :: r) :=
  ⟨by decide, by decide,
   utterance_span ⟨0, 0, 0, 2⟩ []
     [some ⟨1, 2, some "hello", false⟩, none, some ⟨3, 4, some "world", false⟩]
     (WordEntry.mk 1 2 (some "hello") false)
     [WordEntry.mk 3 4 (some "world") false] (by decide) (by decide)⟩

/-- C6 (counterexample to the claim as stated): the claim says an
out-of-bounds word-index range makes the slice in `join_seg_words`
raise a generic indexing fault.  Python list slicing clamps instead:
with a one-word timeline and range `[5, 9]` the call returns normally,
with an empty group, and the whole reconstruction completes without
error, emitting nothing. -/
theorem out_of_bounds_counterexample :
    joinSegWords [⟨0, 1, 5, 9⟩] [some ⟨1, 2, some "hi", false⟩] = [[]] ∧
    buildSentences (joinSegWords [⟨0, 1, 5, 9⟩] [some ⟨1, 2, some "hi", false⟩]) =
      some [] := by
  decide

/-- C6 (amended): `join_seg_words` never raises — it yields one group
per boundary regardless of the index range — and a boundary whose
resolved range starts at or beyond the timeline length is clamped to an
empty slice and then silently dropped by the sentence-building step. -/
theorem out_of_bounds_clamps (segs : List Segment) (seg : Segment) (rest : List Segment)
    (words : List (Option WordEntry)) (h : words.length ≤ seg.from_word) :
    (joinSegWords segs words).length = segs.length ∧
    joinSegWords (seg :: rest) words = [] :: joinSegWords rest words ∧
    buildSentences (joinSegWords (seg :: rest) words) =
      buildSentences (joinSegWords rest words) := by
  have hsl : pySlice words seg.from_word (seg.to_word + 1) = [] := by
    unfold pySlice
    refine List.drop_eq_nil_of_le ?_
    calc (words.take (seg.to_word + 1)).length ≤ words.length := by
          simp [List.length_take]
      _ ≤ seg.from_word := h
  refine ⟨by simp [joinSegWords], ?_, ?_⟩
  · simp [joinSegWords, hsl]
  · simp [joinSegWords, hsl, buildSentences]

/-- Witness for C6 (amended) on a concrete out-of-bounds boundary. -/
theorem out_of_bounds_clamps_witness :
    ([some ⟨1, 2, some "hi", false⟩] : List (Option WordEntry)).length ≤
      (Segment.mk 0 1 5 9).from_word ∧
    (joinSegWords [⟨0, 1, 5, 9⟩] [some ⟨1, 2, some "hi", false⟩]).length =
      [(⟨0, 1, 5, 9⟩ : Segment)].length ∧
    joinSegWords ((⟨0, 1, 5, 9⟩ : Segment) :: []) [some ⟨1, 2, some "hi", false⟩] =
      [] :: joinSegWords [] [some ⟨1, 2, some "hi", false⟩] ∧
    buildSentences (joinSegWords ((⟨0, 1, 5, 9⟩ : Segment) :: [])
        [some ⟨1, 2, some "hi", false⟩]) =
      buildSentences (joinSegWords [] [some ⟨1, 2, some "hi", false⟩]) :=
  ⟨by decide,
   out_of_bounds_clamps [⟨0, 1, 5, 9⟩] ⟨0, 1, 5, 9⟩ [] [some ⟨1, 2, some "hi", false⟩]
     (by decide)⟩

theorem parseSegNode_ok_iff (n : SNode) :
    (∃ s, parseSegNode n = .ok s) ↔ refOk n := by
  match htk : segTokens n with
  | [] =>
    simp only [parseSegNode, refOk, htk]
    constructor
    · rintro ⟨s, hs⟩; cases hs
    · rintro (h | ⟨h, -⟩) <;> simp at h
  | [a] =>
    simp only [parseSegNode, refOk, htk]
    exact ⟨fun _ => Or.inl rfl, fun _ => ⟨none, rfl⟩⟩
  | [a, b] =>
    cases hsa : searchWordsNum a with
    | none =>
      simp only [parseSegNode, refOk, htk, hsa]
      constructor
      · rintro ⟨s, hs⟩; cases hs
      · rintro (h | ⟨-, h⟩)
        · simp at h
        · have := h a (by simp)
          rw [hsa] at this; cases this
    | some fw =>
      cases hsb : searchWordsNum b with
      | none =>
        simp only [parseSegNode, refOk, htk, hsa, hsb]
        constructor
        · rintro ⟨s, hs⟩; cases hs
        · rintro (h | ⟨-, h⟩)
          · simp at h
          · have := h b (by simp)
            rw [hsb] at this; cases this
      | some tw =>
        simp only [parseSegNode, refOk, htk, hsa, hsb]
        refine ⟨fun _ => Or.inr ⟨rfl, ?_⟩, fun _ => ⟨_, rfl⟩⟩
        intro t ht
        rcases List.mem_cons.mp ht with h | h
        · subst h; simp [hsa]
        · rcases List.mem_cons.mp h with h2 | h2
          · subst h2; simp [hsb]
          · cases h2
  | a :: b :: c :: rest =>
    simp only [parseSegNode, refOk, htk]
    constructor
    · rintro ⟨s, hs⟩; cases hs
    · rintro (h | ⟨h, -⟩) <;> simp at h

/-- C7: `parse_segments` succeeds iff every node reference splits on
`..` into one token, or into two tokens both matching the word-id
regex; on success the boundaries are returned in document order
(the in-order collection of the per-node segments). -/
theorem parse_segments_error_iff (ns : List SNode) :
    ((∃ v, parseSegments ns = .ok v) ↔ ∀ n ∈ ns, refOk n) ∧
    ((∀ n ∈ ns, refOk n) → parseSegments ns = .ok (ns.filterMap segOfNode)) := by
  induction ns with
  | nil => exact ⟨by simp [parseSegments], fun _ => by simp [parseSegments]⟩
  | cons a as ih =>
    cases ha : parseSegNode a with
    | error e =>
      have hra : ¬refOk a := by
        rw [← parseSegNode_ok_iff]
        rintro ⟨s, hs⟩; rw [ha] at hs; cases hs
      constructor
      · constructor
        · rintro ⟨v, hv⟩
          simp only [parseSegments, ha] at hv
          cases hv
        · intro hall
          exact absurd (hall a (List.mem_cons_self a as)) hra
      · intro hall
        exact absurd (hall a (List.mem_cons_self a as)) hra
    | ok o =>
      have hra : refOk a := (parseSegNode_ok_iff a).mp ⟨o, ha⟩
      cases o with
      | none =>
        have hseg : parseSegments (a :: as) = parseSegments as := by
          simp [parseSegments, ha]
        have hfm : (a :: as).filterMap segOfNode = as.filterMap segOfNode := by
          simp [List.filterMap_cons, segOfNode, ha]
        constructor
        · rw [hseg, ih.1, List.forall_mem_cons]
          simp [hra]
        · intro hall
          rw [hseg, hfm]
          exact ih.2 fun n hn => hall n (List.mem_cons_of_mem a hn)
      | some s =>
        have hseg : parseSegments (a :: as) = (parseSegments as).map (s :: ·) := by
          simp [parseSegments, ha]
        have hfm : (a :: as).filterMap segOfNode = s :: as.filterMap segOfNode := by
          simp [List.filterMap_cons, segOfNode, ha]
        constructor
        · rw [hseg]
          constructor
          · rintro ⟨v, hv⟩
            cases hv2 : parseSegments as with
            | error e => rw [hv2] at hv; cases hv
            | ok w =>
              rw [List.forall_mem_cons]
              exact ⟨hra, (ih.1).mp ⟨w, hv2⟩⟩
          · intro hall
            obtain ⟨v, hv⟩ := (ih.1).mpr fun n hn => hall n (List.mem_cons_of_mem a hn)
            exact ⟨s :: v, by rw [hv]; rfl⟩
        · intro hall
          rw [hseg, hfm, ih.2 fun n hn => hall n (List.mem_cons_of_mem a hn)]
          rfl

/-- Witness for C7: a well-formed two-node document, one range
reference and one single-anchor reference. -/
theorem parse_segments_error_iff_witness :
    (∀ n ∈ ([⟨"f#words1..words2", 0, 1⟩, ⟨"g#id(x.words24)", 2, 3⟩] : List SNode),
      refOk n) ∧
    parseSegments [⟨"f#words1..words2", 0, 1⟩, ⟨"g#id(x.words24)", 2, 3⟩] =
      .ok (([⟨"f#words1..words2", 0, 1⟩, ⟨"g#id(x.words24)", 2, 3⟩] :
        List SNode).filterMap segOfNode) :=
  ⟨by decide, (parse_segments_error_iff _).2 (by decide)⟩

theorem rttmLe_trans (a b c : ℚ × String) :
    (fun a b : ℚ × String => decide (a.1 ≤ b.1)) a b →
    (fun a b : ℚ × String => decide (a.1 ≤ b.1)) b c →
    (fun a b : ℚ × String => decide (a.1 ≤ b.1)) a c := by
  simp only [decide_eq_true_eq]
  exact le_trans

theorem rttmLe_total (a b : ℚ × String) :
    ((fun a b : ℚ × String => decide (a.1 ≤ b.1)) a b ||
     (fun a b : ℚ × String => decide (a.1 ≤ b.1)) b a) := by
  simp only [Bool.or_eq_true, decide_eq_true_eq]
  exact le_total a.1 b.1

/-- C3: the merged turn list is non-decreasing in start time, and the
sort is stable: restricted to any fixed start time, the sorted list
coincides with the insertion-order list (speaker labels in iteration
order, utterances in per-speaker order).  The serialized output is the
row projection of that sorted list. -/
theorem make_rttm_sorted_stable (meet_id : String)
    (transcript : List (String × List Utterance)) (spkrName : String → String) :
    List.Pairwise (fun a b : ℚ × String => a.1 ≤ b.1)
      (makeRttmPairs meet_id transcript spkrName) ∧
    (∀ s : ℚ, (makeRttmPairs meet_id transcript spkrName).filter
        (fun p => decide (p.1 = s)) =
      (rttmEntries meet_id transcript spkrName).filter (fun p => decide (p.1 = s))) ∧
    makeRttm meet_id transcript spkrName =
      (makeRttmPairs meet_id transcript spkrName).map Prod.snd := by
  refine ⟨?_, ?_, rfl⟩
  · have hs := List.sorted_mergeSort rttmLe_trans rttmLe_total
      (rttmEntries meet_id transcript spkrName)
    exact hs.imp fun h => of_decide_eq_true h
  · intro s
    set pre := rttmEntries meet_id transcript spkrName with hpre
    set q : ℚ × String → Bool := fun p => decide (p.1 = s) with hq
    have hpair : (pre.filter q).Pairwise (fun a b => decide (a.1 ≤ b.1)) := by
      refine List.pairwise_of_forall_mem_list ?_
      intro a ha b hb
      have ha2 : a.1 = s := of_decide_eq_true (List.mem_filter.mp ha).2
      have hb2 : b.1 = s := of_decide_eq_true (List.mem_filter.mp hb).2
      simp [ha2, hb2]
    have hsub : List.Sublist (pre.filter q)
        (pre.mergeSort fun a b => decide (a.1 ≤ b.1)) :=
      List.sublist_mergeSort rttmLe_trans rttmLe_total hpair (List.filter_sublist pre)
    have hself : (pre.filter q).filter q = pre.filter q :=
      List.filter_eq_self.mpr fun a ha => (List.mem_filter.mp ha).2
    have hsub2 : List.Sublist (pre.filter q)
        ((pre.mergeSort fun a b => decide (a.1 ≤ b.1)).filter q) := by
      rw [← hself]; exact hsub.filter q
    have hperm : List.Perm
        ((pre.mergeSort fun a b => decide (a.1 ≤ b.1)).filter q) (pre.filter q) :=
      (List.mergeSort_perm pre _).filter q
    exact (hsub2.eq_of_length hperm.length_eq.symm).symm

theorem digitChar_isDigit (d : Nat) (h : d < 10) : (digitChar d).isDigit = true := by
  interval_cases d <;> decide

theorem isDigit_ne_space (c : Char) (h : c.isDigit = true) : c ≠ ' ' := by
  intro he; subst he; exact absurd h (by decide)

theorem isDigit_ne_dot (c : Char) (h : c.isDigit = true) : c ≠ '.' := by
  intro he; subst he; exact absurd h (by decide)

theorem isDigit_ne_dash (c : Char) (h : c.isDigit = true) : c ≠ '-' := by
  intro he; subst he; exact absurd h (by decide)

theorem natChars_digit : ∀ (n : Nat), ∀ c ∈ natChars n, c.isDigit = true := by
  intro n
  induction n using Nat.strong_induction_on with
  | _ n ih =>
    rw [natChars]
    split
    · next h =>
      intro c hc
      rw [List.mem_singleton] at hc
      subst hc
      exact digitChar_isDigit n h
    · next h =>
      intro c hc
      rcases List.mem_append.mp hc with h1 | h1
      · exact ih (n / 10) (Nat.div_lt_self (by omega) (by omega)) c h1
      · rw [List.mem_singleton] at h1
        subst h1
        exact digitChar_isDigit _ (Nat.mod_lt _ (by omega))

theorem natChars_ne_nil (n : Nat) : natChars n ≠ [] := by
  rw [natChars]
  split <;> simp

theorem pad3_digit (m : Nat) (hm : m < 1000) : ∀ c ∈ pad3 m, c.isDigit = true := by
  intro c hc
  have h1 : m / 100 < 10 := by omega
  have h2 : m / 10 % 10 < 10 := Nat.mod_lt _ (by omega)
  have h3 : m % 10 < 10 := Nat.mod_lt _ (by omega)
  simp only [pad3, List.mem_cons, List.not_mem_nil, or_false] at hc
  rcases hc with rfl | rfl | rfl
  · exact digitChar_isDigit _ h1
  · exact digitChar_isDigit _ h2
  · exact digitChar_isDigit _ h3

theorem fmt3_no_space (x : ℚ) : ' ' ∉ (fmt3 x).data := by
  intro hmem
  have hdata : (fmt3 x).data =
      (if round (1000 * x) < 0 then ['-'] else []) ++
        natChars ((round (1000 * x) : ℤ).natAbs / 1000) ++
        '.' :: pad3 ((round (1000 * x) : ℤ).natAbs % 1000) := rfl
  rw [hdata] at hmem
  rcases List.mem_append.mp hmem with h | h
  · rcases List.mem_append.mp h with h1 | h1
    · split at h1
      · rw [List.mem_singleton] at h1; cases h1
      · cases h1
    · exact isDigit_ne_space _ (natChars_digit _ _ h1) rfl
  · rcases List.mem_cons.mp h with h1 | h1
    · cases h1
    · exact isDigit_ne_space _
        (pad3_digit _ (Nat.mod_lt _ (by omega)) _ h1) rfl

theorem splitChar_no_sep (sep : Char) (l : List Char) (h : sep ∉ l) :
    splitChar sep l = [l] := by
  induction l with
  | nil => rfl
  | cons c cs ih =>
    have hc : ¬c = sep := fun he => h (he ▸ List.mem_cons_self c cs)
    have ihr := ih fun hm => h (List.mem_cons_of_mem c hm)
    simp [splitChar, hc, ihr]

theorem splitChar_append_sep (sep : Char) (l₁ l₂ : List Char) (h : sep ∉ l₁) :
    splitChar sep (l₁ ++ sep :: l₂) = l₁ :: splitChar sep l₂ := by
  induction l₁ with
  | nil => simp [splitChar]
  | cons c cs ih =>
    have hc : ¬c = sep := fun he => h (he ▸ List.mem_cons_self c cs)
    have ihr := ih fun hm => h (List.mem_cons_of_mem c hm)
    simp [splitChar, hc, ihr]

theorem splitSp_joinSp : ∀ (fields : List String), fields ≠ [] →
    (∀ f ∈ fields, ' ' ∉ f.data) →
    splitSp (joinSp fields).data = fields.map String.data := by
  intro fields
  induction fields with
  | nil => intro h; exact absurd rfl h
  | cons f fs ih =>
    intro _ hns
    cases fs with
    | nil =>
      show splitChar ' ' (joinSp [f]).data = [f.data]
      exact splitChar_no_sep ' ' f.data (hns f (List.mem_cons_self f []))
    | cons g gs =>
      have hjoin : joinSp (f :: g :: gs) = f ++ " " ++ joinSp (g :: gs) := rfl
      have hdata : (joinSp (f :: g :: gs)).data =
          f.data ++ ' ' :: (joinSp (g :: gs)).data := by
        rw [hjoin, String.data_append, String.data_append, List.append_assoc]
        rfl
      show splitChar ' ' (joinSp (f :: g :: gs)).data = f.data :: (g :: gs).map String.data
      rw [hdata, splitChar_append_sep ' ' f.data _ (hns f (List.mem_cons_self f _))]
      have h2 : splitChar ' ' (joinSp (g :: gs)).data = (g :: gs).map String.data :=
        ih (by simp) fun x hx => hns x (List.mem_cons_of_mem f hx)
      rw [h2]

/-- C8: splitting one serialized row on spaces yields exactly ten
fields in fixed order — the literal `SPEAKER`, the meeting id, the
literal `1`, the start and the duration formatted with three decimals,
then five fields of which four are the placeholder `<NA>` and the
eighth overall is the global identity of the speaker — provided the meeting
id and the speaker identity contain no space. -/
theorem rttm_row_ten_fields (meet_id spkr : String) (s e : ℚ)
    (hm : ' ' ∉ meet_id.data) (hs : ' ' ∉ spkr.data) :
    splitSp (rttmLine meet_id spkr s e).data =
      ["SPEAKER".data, meet_id.data, "1".data, (fmt3 s).data, (fmt3 (e - s)).data,
       "<NA>".data, "<NA>".data, spkr.data, "<NA>".data, "<NA>".data] ∧
    (splitSp (rttmLine meet_id spkr s e).data).length = 10 := by
  have hfields : ∀ f ∈ ["SPEAKER", meet_id, "1", fmt3 s, fmt3 (e - s), "<NA>", "<NA>",
      spkr, "<NA>", "<NA>"], ' ' ∉ f.data := by
    intro f hf
    simp only [List.mem_cons, List.not_mem_nil, or_false] at hf
    rcases hf with rfl | rfl | rfl | rfl | rfl | rfl | rfl | rfl | rfl | rfl
    · decide
    · exact hm
    · decide
    · exact fmt3_no_space s
    · exact fmt3_no_space (e - s)
    · decide
    · decide
    · exact hs
    · decide
    · decide
  have h := splitSp_joinSp ["SPEAKER", meet_id, "1", fmt3 s, fmt3 (e - s), "<NA>", "<NA>",
      spkr, "<NA>", "<NA>"] (by simp) hfields
  have hr : (rttmLine meet_id spkr s e).data =
      (joinSp ["SPEAKER", meet_id, "1", fmt3 s, fmt3 (e - s), "<NA>", "<NA>",
        spkr, "<NA>", "<NA>"]).data := rfl
  constructor
  · rw [hr, h]; rfl
  · rw [hr, h]; rfl

/-- Witness for C8 on a concrete meeting id and speaker identity. -/
theorem rttm_row_ten_fields_witness :
    ' ' ∉ "ES2002a".data ∧ ' ' ∉ "FEE005".data ∧
    (splitSp (rttmLine "ES2002a" "FEE005" 1 2).data =
      ["SPEAKER".data, "ES2002a".data, "1".data, (fmt3 1).data, (fmt3 (2 - 1)).data,
       "<NA>".data, "<NA>".data, "FEE005".data, "<NA>".data, "<NA>".data] ∧
    (splitSp (rttmLine "ES2002a" "FEE005" 1 2).data).length = 10) :=
  ⟨by decide, by decide, rttm_row_ten_fields "ES2002a" "FEE005" 1 2 (by decide) (by decide)⟩

theorem digitVal_digitChar (d : Nat) (h : d < 10) : digitVal (digitChar d) = d := by
  interval_cases d <;> decide

theorem parseDigits_append (l₁ l₂ : List Char) (acc a : Nat)
    (h : parseDigits acc l₁ = some a) :
    parseDigits acc (l₁ ++ l₂) = parseDigits a l₂ := by
  induction l₁ generalizing acc with
  | nil =>
    simp only [parseDigits] at h
    cases h
    rfl
  | cons c cs ih =>
    by_cases hd : c.isDigit = true
    · simp only [parseDigits, hd, if_true] at h
      simp only [List.cons_append, parseDigits, hd, if_true]
      exact ih _ h
    · simp [parseDigits, hd] at h

theorem parseDigits_natChars : ∀ (n : Nat) (acc : Nat),
    parseDigits acc (natChars n) = some (acc * 10 ^ (natChars n).length + n) := by
  intro n
  induction n using Nat.strong_induction_on with
  | _ n ih =>
    intro acc
    rw [natChars]
    split
    · next h =>
      simp only [parseDigits, digitChar_isDigit n h, if_true, digitVal_digitChar n h,
        List.length_singleton, pow_one]
    · next h =>
      have hd : n % 10 < 10 := Nat.mod_lt _ (by omega)
      have h1 := ih (n / 10) (Nat.div_lt_self (by omega) (by omega)) acc
      rw [parseDigits_append _ _ _ _ h1]
      simp only [parseDigits, digitChar_isDigit _ hd, if_true, digitVal_digitChar _ hd,
        List.length_append, List.length_singleton]
      congr 1
      have hp : acc * 10 ^ ((natChars (n / 10)).length + 1) =
          acc * 10 ^ (natChars (n / 10)).length * 10 := by
        rw [pow_succ, mul_assoc]
      rw [hp]
      generalize acc * 10 ^ (natChars (n / 10)).length = X
      omega

theorem parseDigits_pad3 (m : Nat) (hm : m < 1000) :
    parseDigits 0 (pad3 m) = some m := by
  have h1 : m / 100 < 10 := by omega
  have h2 : m / 10 % 10 < 10 := Nat.mod_lt _ (by omega)
  have h3 : m % 10 < 10 := Nat.mod_lt _ (by omega)
  simp only [pad3, parseDigits, digitChar_isDigit _ h1, digitChar_isDigit _ h2,
    digitChar_isDigit _ h3, if_true, digitVal_digitChar _ h1, digitVal_digitChar _ h2,
    digitVal_digitChar _ h3]
  congr 1
  omega

theorem splitAtDot_append (l₁ l₂ : List Char) (h : ∀ c ∈ l₁, c ≠ '.') :
    splitAtDot (l₁ ++ '.' :: l₂) = some (l₁, l₂) := by
  induction l₁ with
  | nil => simp [splitAtDot]
  | cons c cs ih =>
    have hc : ¬c = '.' := h c (List.mem_cons_self c cs)
    have ihr := ih fun x hx => h x (List.mem_cons_of_mem c hx)
    simp [splitAtDot, hc, ihr]

theorem parseFixed3Abs_fmt3core (a : Nat) :
    parseFixed3Abs (natChars (a / 1000) ++ '.' :: pad3 (a % 1000)) =
      some ((a : ℚ) / 1000) := by
  have hsplit := splitAtDot_append (natChars (a / 1000)) (pad3 (a % 1000))
    fun c hc => isDigit_ne_dot c (natChars_digit _ c hc)
  have hip := parseDigits_natChars (a / 1000) 0
  rw [zero_mul, zero_add] at hip
  have hfp := parseDigits_pad3 (a % 1000) (Nat.mod_lt _ (by omega))
  have hlen : (pad3 (a % 1000)).length = 3 := rfl
  have hne : (natChars (a / 1000)).isEmpty = false := by
    rw [List.isEmpty_eq_false_iff_exists_mem]
    obtain ⟨c, cs, hcons⟩ := List.exists_cons_of_ne_nil (natChars_ne_nil (a / 1000))
    exact ⟨c, by rw [hcons]; exact List.mem_cons_self c cs⟩
  have hq : ((a / 1000 : ℕ) : ℚ) + ((a % 1000 : ℕ) : ℚ) / 1000 = (a : ℚ) / 1000 := by
    rw [eq_div_iff (by norm_num : (1000 : ℚ) ≠ 0), add_mul,
      div_mul_cancel₀ _ (by norm_num : (1000 : ℚ) ≠ 0)]
    exact_mod_cast (by omega : a / 1000 * 1000 + a % 1000 = a)
  unfold parseFixed3Abs
  rw [hsplit]
  dsimp only
  rw [if_neg ?hcond]
  case hcond =>
    rintro (h | h)
    · rw [hne] at h; cases h
    · exact h hlen
  rw [hip, hfp]
  dsimp only
  rw [hq]

theorem parseFixed3_mk (n : ℤ) :
    parseFixed3 (String.mk ((if n < 0 then ['-'] else []) ++
        natChars (n.natAbs / 1000) ++ '.' :: pad3 (n.natAbs % 1000))) =
      some ((n : ℚ) / 1000) := by
  by_cases hneg : n < 0
  · rw [if_pos hneg]
    have hd : (String.mk (['-'] ++ natChars (n.natAbs / 1000) ++
        '.' :: pad3 (n.natAbs % 1000))).data =
        '-' :: (natChars (n.natAbs / 1000) ++ '.' :: pad3 (n.natAbs % 1000)) := rfl
    unfold parseFixed3
    rw [hd]
    dsimp only
    rw [if_pos rfl, parseFixed3Abs_fmt3core n.natAbs]
    have hcast : (n.natAbs : ℚ) = -(n : ℚ) := by
      rw [Nat.cast_natAbs, abs_of_neg hneg, Int.cast_neg]
    simp only [Option.map_some']
    congr 1
    rw [hcast]
    ring
  · rw [if_neg hneg]
    obtain ⟨c, cs, hcons⟩ := List.exists_cons_of_ne_nil (natChars_ne_nil (n.natAbs / 1000))
    have hcd : c.isDigit = true :=
      natChars_digit _ c (hcons ▸ List.mem_cons_self c cs)
    have hd : (String.mk ([] ++ natChars (n.natAbs / 1000) ++
        '.' :: pad3 (n.natAbs % 1000))).data =
        c :: (cs ++ '.' :: pad3 (n.natAbs % 1000)) := by
      show [] ++ natChars (n.natAbs / 1000) ++ '.' :: pad3 (n.natAbs % 1000) = _
      rw [List.nil_append, hcons, List.cons_append]
    unfold parseFixed3
    rw [hd]
    dsimp only
    rw [if_neg (isDigit_ne_dash c hcd)]
    have hback : c :: (cs ++ '.' :: pad3 (n.natAbs % 1000)) =
        natChars (n.natAbs / 1000) ++ '.' :: pad3 (n.natAbs % 1000) := by
      rw [hcons, List.cons_append]
    rw [hback, parseFixed3Abs_fmt3core n.natAbs]
    have hcast : (n.natAbs : ℚ) = (n : ℚ) := by
      rw [Nat.cast_natAbs, abs_of_nonneg (not_lt.mp hneg)]
    rw [hcast]

theorem parseFixed3_fmt3 (x : ℚ) :
    parseFixed3 (fmt3 x) = some (((round (1000 * x) : ℤ) : ℚ) / 1000) :=
  parseFixed3_mk (round (1000 * x))

theorem fmt3_round_trip (x : ℚ) :
    ∃ y, parseFixed3 (fmt3 x) = some y ∧ |y - x| ≤ 1 / 2000 := by
  refine ⟨((round (1000 * x) : ℤ) : ℚ) / 1000, parseFixed3_fmt3 x, ?_⟩
  have h1 : |1000 * x - round (1000 * x)| ≤ 1 / 2 := abs_sub_round (1000 * x)
  have h2 : ((round (1000 * x) : ℤ) : ℚ) / 1000 - x =
      -((1000 * x - ((round (1000 * x) : ℤ) : ℚ)) / 1000) := by ring
  rw [h2, abs_neg, abs_div, abs_of_pos (by norm_num : (0 : ℚ) < 1000)]
  linarith [h1]

/-- C9: serializing the two numeric fields of a turn with the
three-decimal formatting and re-parsing them recovers the start and the
duration to within half a unit in the third decimal place. -/
theorem round_trip_3dp (s e : ℚ) :
    (∃ s3, parseFixed3 (fmt3 s) = some s3 ∧ |s3 - s| ≤ 1 / 2000) ∧
    (∃ d3, parseFixed3 (fmt3 (e - s)) = some d3 ∧ |d3 - (e - s)| ≤ 1 / 2000) :=
  ⟨fmt3_round_trip s, fmt3_round_trip (e - s)⟩

end AMI
